import Mathlib

/-!
Verification of the dockge Rust backend (src/backend-rust) against its
natural-language specification.  The relevant program fragments are shallowly
embedded below: strings are `List Char`, the filesystem is an explicit state
record, and external libraries (serde_yaml, the SHAKE256 core, bcrypt) are
oracle parameters.  Definitions are translated from the source files named in
their doc comments.
-/

namespace Dockge

/-! ### Status constants — models/stack.rs lines 12-18 -/

def UNKNOWN : Int := 0
def CREATED_FILE : Int := 1
def CREATED_STACK : Int := 2
def RUNNING : Int := 3
def EXITED : Int := 4
def RUNNING_AND_EXITED : Int := 5
def UNHEALTHY : Int := 6

/-! ### String helpers shared by the embeddings -/

/-- The Unicode `Nd` (decimal number) code point ranges, which is what the
regex crate's `\d` class matches (`\p{Nd}`; Unicode 16.0 tables as shipped by
regex ≥ 1.11). -/
def ndRanges : List (Nat × Nat) :=
  [(0x30, 0x39), (0x660, 0x669), (0x6F0, 0x6F9), (0x7C0, 0x7C9),
   (0x966, 0x96F), (0x9E6, 0x9EF), (0xA66, 0xA6F), (0xAE6, 0xAEF),
   (0xB66, 0xB6F), (0xBE6, 0xBEF), (0xC66, 0xC6F), (0xCE6, 0xCEF),
   (0xD66, 0xD6F), (0xDE6, 0xDEF), (0xE50, 0xE59), (0xED0, 0xED9),
   (0xF20, 0xF29), (0x1040, 0x1049), (0x1090, 0x1099), (0x17E0, 0x17E9),
   (0x1810, 0x1819), (0x1946, 0x194F), (0x19D0, 0x19D9), (0x1A80, 0x1A89),
   (0x1A90, 0x1A99), (0x1B50, 0x1B59), (0x1BB0, 0x1BB9), (0x1C40, 0x1C49),
   (0x1C50, 0x1C59), (0xA620, 0xA629), (0xA8D0, 0xA8D9), (0xA900, 0xA909),
   (0xA9D0, 0xA9D9), (0xA9F0, 0xA9F9), (0xAA50, 0xAA59), (0xABF0, 0xABF9),
   (0xFF10, 0xFF19), (0x104A0, 0x104A9), (0x10D30, 0x10D39), (0x10D40, 0x10D49),
   (0x11066, 0x1106F), (0x110F0, 0x110F9), (0x11136, 0x1113F), (0x111D0, 0x111D9),
   (0x112F0, 0x112F9), (0x11450, 0x11459), (0x114D0, 0x114D9), (0x11650, 0x11659),
   (0x116C0, 0x116C9), (0x116D0, 0x116E3), (0x11730, 0x11739), (0x118E0, 0x118E9),
   (0x11950, 0x11959), (0x11BF0, 0x11BF9), (0x11C50, 0x11C59), (0x11D50, 0x11D59),
   (0x11DA0, 0x11DA9), (0x11F50, 0x11F59), (0x16130, 0x16139), (0x16A60, 0x16A69),
   (0x16AC0, 0x16AC9), (0x16B50, 0x16B59), (0x16D70, 0x16D79), (0x1CCF0, 0x1CCF9),
   (0x1D7CE, 0x1D7FF), (0x1E140, 0x1E149), (0x1E2F0, 0x1E2F9), (0x1E4F0, 0x1E4F9),
   (0x1E5F1, 0x1E5FA), (0x1E950, 0x1E959), (0x1FBF0, 0x1FBF9)]

/-- The regex crate's `\d`: a Unicode decimal number (`\p{Nd}`), not only
ASCII `0-9`. -/
def isNd (c : Char) : Bool :=
  ndRanges.any fun r => r.1 ≤ c.toNat && c.toNat ≤ r.2

/-- Numeric value of a digit run, as produced by `str::parse` on ASCII
digits. -/
def digitsToNat (ds : List Char) : Nat :=
  ds.foldl (fun a c => a * 10 + (c.toNat - '0'.toNat)) 0

/-- `str::parse::<i32>` on a capture of `\d+`: succeeds iff the capture is a
non-empty run of ASCII digits (a Unicode digit such as `٣` makes the parse
fail) whose value fits in an `i32`; the caller uses `.ok()` so a failure
becomes `none`. -/
def parseI32 (ds : List Char) : Option Int :=
  if ds ≠ [] ∧ ds.all Char.isDigit ∧ digitsToNat ds ≤ 2147483647 then
    some (Int.ofNat (digitsToNat ds))
  else none

/-- One attempted match of the regex `<pat>(\d+)\)` (where `pat` already ends
with the opening parenthesis) at the head of `s`: the greedy `\p{Nd}` run
must be nonempty and be followed by a closing parenthesis. -/
def captureAt (pat : List Char) (s : List Char) : Option (List Char) :=
  if pat.isPrefixOf s then
    let rest := s.drop pat.length
    let ds := rest.takeWhile isNd
    if ds ≠ [] ∧ (rest.drop ds.length).head? = some ')' then some ds else none
  else none

/-- Leftmost match of the regex, as `Regex::captures` finds it. -/
def captureFirst (pat : List Char) : List Char → Option (List Char)
  | [] => none
  | c :: t =>
    match captureAt pat (c :: t) with
    | some ds => some ds
    | none => captureFirst pat t

/-- `str::contains` for a literal pattern. -/
def containsSub (pat : List Char) : List Char → Bool
  | [] => pat.isEmpty
  | c :: t => pat.isPrefixOf (c :: t) || containsSub pat t

/-- The count extracted by
`Regex::new(r"<word>\((\d+)\)").captures(s) … .parse::<i32>().ok().unwrap_or(0)`
in `status_convert` (models/stack.rs lines 413-425). -/
def regexCount (pat : List Char) (s : List Char) : Int :=
  match captureFirst pat s with
  | some ds => (parseI32 ds).getD 0
  | none => 0

/-- `status_convert` — models/stack.rs lines 408-440. -/
def status_convert (status : List Char) : Int :=
  if ("created".data).isPrefixOf status then CREATED_STACK
  else
    let running_count := regexCount "running(".data status
    let exited_count := regexCount "exited(".data status
    if running_count > 0 ∧ exited_count > 0 then RUNNING_AND_EXITED
    else if running_count > 0 then RUNNING
    else if exited_count > 0 then EXITED
    else if containsSub "running".data status then RUNNING
    else if containsSub "exited".data status then EXITED
    else UNKNOWN

/-! ### Image reference parsing — update_checker.rs lines 24-63 -/

/-- Rust `char::is_whitespace` (the Unicode White_Space property). -/
def rustIsWhitespace (c : Char) : Bool :=
  c.toNat ∈ [0x9, 0xA, 0xB, 0xC, 0xD, 0x20, 0x85, 0xA0, 0x1680,
    0x2000, 0x2001, 0x2002, 0x2003, 0x2004, 0x2005, 0x2006, 0x2007,
    0x2008, 0x2009, 0x200A, 0x2028, 0x2029, 0x202F, 0x205F, 0x3000]

/-- Rust `str::trim`. -/
def rustTrim (s : List Char) : List Char :=
  ((s.dropWhile rustIsWhitespace).reverse.dropWhile rustIsWhitespace).reverse

/-- Rust `str::find` for a literal pattern: index of the leftmost occurrence. -/
def findSub (pat : List Char) : List Char → Option Nat
  | [] => if pat.isEmpty then some 0 else none
  | c :: t => if pat.isPrefixOf (c :: t) then some 0 else (findSub pat t).map (· + 1)

/-- Rust `str::rfind` for a single character: index of the rightmost occurrence. -/
def rfindChar (c : Char) (s : List Char) : Option Nat :=
  (s.reverse.findIdx? (· = c)).map (fun i => s.length - 1 - i)

/-- Rust `str::split(sep)` collected into a vector. -/
def splitOnChar (sep : Char) : List Char → List (List Char)
  | [] => [[]]
  | c :: t =>
    if c = sep then [] :: splitOnChar sep t
    else
      match splitOnChar sep t with
      | h :: r => (c :: h) :: r
      | [] => [[c]]

/-- Rust `[&str]::join(sep)` for a one-character separator. -/
def joinSep (sep : Char) : List (List Char) → List Char
  | [] => []
  | [x] => x
  | x :: xs => x ++ sep :: joinSep sep xs

/-- Digest-stripping step of `parse_image_reference`: cut the reference at the
first occurrence of `@sha256:` (update_checker.rs lines 27-30). -/
def stripDigest (reference : List Char) : List Char :=
  match findSub "@sha256:".data reference with
  | some pos => reference.take pos
  | none => reference

/-- `ParsedImageRef` — update_checker.rs lines 16-21. -/
structure ParsedImageRef where
  registry : List Char
  repository : List Char
  tag : List Char
deriving DecidableEq

/-- Tag-splitting step shared by the parser: drop everything after the last
`:` when that colon sits strictly after `last_slash.unwrap_or(0)`
(update_checker.rs lines 36-45).  Returns the remaining reference and the tag
(default `latest`). -/
def splitTag (reference : List Char) : List Char × List Char :=
  match rfindChar ':' reference with
  | some colon_pos =>
    let slash_pos := (rfindChar '/' reference).getD 0
    if colon_pos > slash_pos then
      (reference.take colon_pos, reference.drop (colon_pos + 1))
    else (reference, "latest".data)
  | none => (reference, "latest".data)

/-- `parse_image_reference` — update_checker.rs lines 24-63. -/
def parse_image_reference (image_ref : List Char) : ParsedImageRef :=
  let reference := stripDigest (rustTrim image_ref)
  let rt := splitTag reference
  let reference := rt.1
  let tag := rt.2
  let parts := splitOnChar '/' reference
  if 2 ≤ parts.length ∧ ((parts.headD []).contains '.' ∨ (parts.headD []).contains ':') then
    { registry := parts.headD [], repository := joinSep '/' parts.tail, tag := tag }
  else if parts.length = 1 then
    { registry := "registry-1.docker.io".data,
      repository := "library/".data ++ parts.headD [], tag := tag }
  else
    { registry := "registry-1.docker.io".data, repository := reference, tag := tag }

/-- The amended derivation of an image reference (the claim, corrected):
strip the digest, split off the tag, then the first `/`-separated segment is
the registry only when there are at least two segments and it contains `.` or
`:`; the repository is the join of the remaining segments, with `library/`
prepended only when no registry segment was detected and the remainder is a
single segment. -/
def amended_parse_image_reference (image_ref : List Char) : ParsedImageRef :=
  let reference := stripDigest (rustTrim image_ref)
  let rt := splitTag reference
  let parts := splitOnChar '/' rt.1
  if 2 ≤ parts.length ∧ ((parts.headD []).contains '.' ∨ (parts.headD []).contains ':') then
    { registry := parts.headD [], repository := joinSep '/' parts.tail, tag := rt.2 }
  else
    { registry := "registry-1.docker.io".data,
      repository :=
        if parts.length = 1 then "library/".data ++ parts.headD []
        else joinSep '/' parts,
      tag := rt.2 }

/-! ### Image update decision — update_checker.rs -/

/-- A YAML/JSON value as probed by `Value::as_str`: either a string or
something else (`as_str` returns `None` on the latter). -/
inductive YamlVal where
  | str (s : List Char)
  | other
deriving DecidableEq

def YamlVal.asStr : YamlVal → Option (List Char)
  | .str s => some s
  | .other => none

/-- One entry of the compose document's `services` object, with the fields
`check_all` reads: the `image` string (`None` when absent or not a string)
and the `labels` object (`None` when absent). -/
structure ServiceConfig where
  name : List Char
  image : Option (List Char)
  labels : Option (List (List Char × YamlVal))
deriving DecidableEq

/-- `labels.and_then(|l| l.get(key)).and_then(|v| v.as_str())`
(update_checker.rs lines 350-361). -/
def lookupLabel (labels : Option (List (List Char × YamlVal))) (key : List Char) :
    Option (List Char) :=
  (labels.bind fun l => (l.find? fun p => p.1 == key).map Prod.snd).bind YamlVal.asStr

def checkLabelKey : List Char := "dockge.imageupdates.check".data

def ignoreLabelKey : List Char := "dockge.imageupdates.ignore".data

/-- The per-stack service filter of `check_all` (update_checker.rs lines
343-379): skip services without an image string, skip services whose
`dockge.imageupdates.check` label is `"false"`, and pass the image together
with the `dockge.imageupdates.ignore` label to `check_single_image`. -/
def services_to_check : List ServiceConfig → List (List Char × List Char × Option (List Char))
  | [] => []
  | svc :: rest =>
    match svc.image with
    | none => services_to_check rest
    | some img =>
      if lookupLabel svc.labels checkLabelKey = some "false".data then
        services_to_check rest
      else
        (svc.name, img, lookupLabel svc.labels ignoreLabelKey) :: services_to_check rest

/-- The `has_update` computation of `check_single_image` (update_checker.rs
lines 249-259): initially false; when both digests are present it is their
inequality; when it would be true and the ignore digest equals the remote
digest it is forced back to false. -/
def compute_has_update (remote_digest local_digest ignore_digest : Option (List Char)) : Bool :=
  match remote_digest, local_digest with
  | some remote, some locl =>
    if remote ≠ locl then
      match ignore_digest with
      | some ignore => if remote = ignore then false else true
      | none => true
    else false
  | _, _ => false

/-- A concrete service used by the C3 witness. -/
def svcWeb : ServiceConfig :=
  { name := "web".data, image := some "nginx:1.25".data, labels := none }

/-- The entry `services_to_check` produces for `svcWeb`. -/
def entryWeb : List Char × List Char × Option (List Char) :=
  ("web".data, "nginx:1.25".data, none)

/-! ### Terminal multiplexer — terminal.rs -/

/-- `BUFFER_LIMIT` — terminal.rs line 9. -/
def BUFFER_LIMIT : Nat := 100

/-- `PtyTerminal::push_buffer` — terminal.rs lines 60-66: push the chunk,
then if the length exceeds `BUFFER_LIMIT` remove the element at index 0. -/
def push_buffer (buffer : List (List Char)) (data : List Char) : List (List Char) :=
  let buffer := buffer ++ [data]
  if BUFFER_LIMIT < buffer.length then buffer.tail else buffer

/-- `PtyTerminal::get_buffer` — terminal.rs lines 68-71: `buffer.join("")`. -/
def get_buffer (buffer : List (List Char)) : List Char := buffer.flatten

/-- A sequence of `push_buffer` calls, as performed by the fan-out task. -/
def pushMany (buffer : List (List Char)) (chunks : List (List Char)) : List (List Char) :=
  chunks.foldl push_buffer buffer

/-- The manager's `terminals` map restricted to each terminal's buffer. -/
abbrev TerminalMap := List (List Char × List (List Char))

/-- `TerminalManager::get_buffer` — terminal.rs lines 386-393: look the name
up; return the terminal's concatenated buffer, or the empty string when the
name is unknown. -/
def manager_get_buffer (terminals : TerminalMap) (name : List Char) : List Char :=
  match terminals.find? fun p => p.1 == name with
  | some t => get_buffer t.2
  | none => []

/-- The manager's `terminals` map restricted to registration: each name maps
to the identity of its child process. -/
abbrev Manager := List (List Char × Nat)

/-- `TerminalManager::has` — terminal.rs lines 420-423. -/
def Manager.has (m : Manager) (name : List Char) : Bool :=
  m.any fun p => p.1 == name

/-- The error message of `TerminalManager::exec` — terminal.rs line 282. -/
def alreadyRunningMsg : List Char :=
  "Another operation is already running, please try again later.".data

/-- The registration step of `TerminalManager::exec` — terminal.rs lines
281-298: fail fast when the name is registered; otherwise spawn (`tid` stands
for the spawned child) and insert under the name. -/
def exec_register (m : Manager) (name : List Char) (tid : Nat) : Except (List Char) Manager :=
  if Manager.has m name then Except.error alreadyRunningMsg
  else Except.ok ((name, tid) :: m)

/-- `TerminalManager::remove` — terminal.rs lines 413-418 (map removal). -/
def remove_terminal (m : Manager) (name : List Char) : Manager :=
  m.filter fun p => !(p.1 == name)

/-- The registration step of `TerminalManager::spawn_persistent` —
terminal.rs lines 330-359: return the existing terminal when the name is
present, else spawn and insert. -/
def spawn_persistent_register (m : Manager) (name : List Char) (tid : Nat) : Manager :=
  if Manager.has m name then m else (name, tid) :: m

/-- The manager operations that touch the registration map. -/
inductive TermOp where
  | exec (name : List Char) (tid : Nat)
  | spawnPersistent (name : List Char) (tid : Nat)
  | remove (name : List Char)

def applyOp (m : Manager) : TermOp → Manager
  | .exec name tid =>
    match exec_register m name tid with
    | .ok m2 => m2
    | .error _ => m
  | .spawnPersistent name tid => spawn_persistent_register m name tid
  | .remove name => remove_terminal m name

/-- The registration map reached from the empty manager by a sequence of
operations. -/
def applyOps (ops : List TermOp) : Manager :=
  ops.foldl applyOp []

/-- How many terminals are registered under `name`. -/
def countName (m : Manager) (name : List Char) : Nat :=
  (m.filter fun p => p.1 == name).length

/-! ### Filesystem state and the Stack model — models/stack.rs -/

/-- A filesystem path, as a list of components. -/
abbrev FPath := List (List Char)

/-- The filesystem state touched by `Stack::save` and `Stack::load_from_disk`:
which directories exist and the contents of each file. -/
structure FS where
  dirs : FPath → Bool
  files : FPath → Option (List Char)

def FS.empty : FS := ⟨fun _ => false, fun _ => none⟩

/-- `Path::exists`: true for a directory or a file at the path. -/
def FS.pathExists (fs : FS) (p : FPath) : Bool :=
  fs.dirs p || (fs.files p).isSome

/-- `fs::write`: create or overwrite one file. -/
def FS.write (fs : FS) (p : FPath) (content : List Char) : FS :=
  { fs with files := fun q => if q = p then some content else fs.files q }

/-- `fs::create_dir_all` restricted to the directory itself (ancestors play
no role in the claims). -/
def FS.createDirAll (fs : FS) (p : FPath) : FS :=
  { fs with dirs := fun q => if q = p then true else fs.dirs q }

/-- `fs::read_to_string`. -/
def FS.read (fs : FS) (p : FPath) : Option (List Char) :=
  fs.files p

/-- The fields of `Stack` that `validate`, `save` and `load_from_disk` use
(models/stack.rs lines 34-45). -/
structure StackM where
  name : List Char
  compose_yaml : List Char
  compose_env : List Char
  compose_override_yaml : List Char
  compose_file_name : List Char
  compose_override_file_name : List Char
  stacks_dir : FPath

/-- `Stack::new` — models/stack.rs lines 76-88. -/
def StackM.new (name : List Char) (stacks_dir : FPath) : StackM :=
  { name := name, compose_yaml := [], compose_env := [], compose_override_yaml := [],
    compose_file_name := "compose.yaml".data,
    compose_override_file_name := "compose.override.yaml".data,
    stacks_dir := stacks_dir }

/-- `Stack::path` — models/stack.rs lines 90-92. -/
def StackM.path (st : StackM) : FPath :=
  st.stacks_dir ++ [st.name]

/-- The error kinds `Stack::validate`/`Stack::save` produce (error.rs). -/
inductive AppError where
  | validation (msg : List Char)
  | notFound (msg : List Char)
deriving DecidableEq

/-- The regex `^[a-z0-9_-]+$` of `Stack::validate` (models/stack.rs line
184). -/
def nameOk (name : List Char) : Bool :=
  !name.isEmpty && name.all fun c =>
    ('a' ≤ c && c ≤ 'z') || ('0' ≤ c && c ≤ '9') || c = '_' || c = '-'

/-- Strip one trailing carriage return: applied by `str::lines` to every
line that was terminated by `\n` (so the `\r` was part of a `\r\n`). -/
def stripCR (l : List Char) : List Char :=
  match l.reverse with
  | '\r' :: rest => rest.reverse
  | _ => l

/-- Post-processing of the `\n`-split for `str::lines`: every part except
the last was `\n`-terminated and loses a trailing `\r`; the last part is
empty exactly when the string ended with `\n` (the optional final line
ending) and is then dropped, and otherwise kept verbatim — an unterminated
final line keeps its trailing `\r`. -/
def rustLinesAux : List (List Char) → List (List Char)
  | [] => []
  | [last] => if last.isEmpty then [] else [last]
  | l :: ls => stripCR l :: rustLinesAux ls

/-- Rust `str::lines`: lines are split at `\n` or `\r\n`; a lone `\r` does
not split a line; the final line ending is optional. -/
def rustLines (s : List Char) : List (List Char) :=
  rustLinesAux (splitOnChar '\n' s)

/-- `Stack::validate` — models/stack.rs lines 182-208.  YAML parseability
(serde_yaml, an external library) is the oracle `yamlOk`. -/
def validate (yamlOk : List Char → Bool) (st : StackM) : Except AppError Unit :=
  if !nameOk st.name then
    Except.error (AppError.validation "Stack name can only contain [a-z][0-9] _ - only".data)
  else if !yamlOk st.compose_yaml then
    Except.error (AppError.validation "Invalid YAML".data)
  else if !(rustTrim st.compose_override_yaml).isEmpty && !yamlOk st.compose_override_yaml then
    Except.error (AppError.validation "Invalid override YAML".data)
  else
    let lines := rustLines st.compose_env
    if lines.length = 1 && !((lines.headD []).contains '=') && !(lines.headD []).isEmpty then
      Except.error (AppError.validation "Invalid .env format".data)
    else Except.ok ()

/-- The write sequence of `Stack::save` — models/stack.rs lines 225-240:
always write the compose file; write `.env` when it exists or the env is not
blank; write the override file when it exists or the override is not blank. -/
def saveWrites (st : StackM) (dir : FPath) (fs : FS) : Except AppError Unit × FS :=
  let fs := fs.write (dir ++ [st.compose_file_name]) st.compose_yaml
  let env_path := dir ++ [".env".data]
  let fs :=
    if fs.pathExists env_path || !(rustTrim st.compose_env).isEmpty then
      fs.write env_path st.compose_env
    else fs
  let override_path := dir ++ [st.compose_override_file_name]
  let fs :=
    if fs.pathExists override_path || !(rustTrim st.compose_override_yaml).isEmpty then
      fs.write override_path st.compose_override_yaml
    else fs
  (Except.ok (), fs)

/-- `Stack::save` — models/stack.rs lines 211-241: validate, check the
`is_add` precondition against the stack directory, then write. -/
def save (yamlOk : List Char → Bool) (st : StackM) (is_add : Bool) (fs : FS) :
    Except AppError Unit × FS :=
  match validate yamlOk st with
  | Except.error e => (Except.error e, fs)
  | Except.ok _ =>
    let dir := st.path
    if is_add then
      if fs.pathExists dir then
        (Except.error (AppError.validation "Stack name already exists".data), fs)
      else
        saveWrites st dir (fs.createDirAll dir)
    else if !fs.pathExists dir then
      (Except.error (AppError.notFound "Stack not found".data), fs)
    else
      saveWrites st dir fs

/-- `ACCEPTED_COMPOSE_FILE_NAMES` — models/stack.rs lines 20-25. -/
def ACCEPTED_COMPOSE_FILE_NAMES : List (List Char) :=
  ["compose.yaml".data, "docker-compose.yaml".data,
   "docker-compose.yml".data, "compose.yml".data]

/-- `ACCEPTED_COMPOSE_OVERRIDE_FILE_NAMES` — models/stack.rs lines 27-32. -/
def ACCEPTED_COMPOSE_OVERRIDE_FILE_NAMES : List (List Char) :=
  ["compose.override.yaml".data, "compose.override.yml".data,
   "docker-compose.override.yaml".data, "docker-compose.override.yml".data]

/-- `Stack::load_from_disk` — models/stack.rs lines 113-143: read the first
accepted compose file, the first accepted override file, and `.env`, each
with `unwrap_or_default`. -/
def load_from_disk (fs : FS) (st : StackM) : StackM :=
  let dir := st.path
  let st :=
    match ACCEPTED_COMPOSE_FILE_NAMES.find? (fun f => fs.pathExists (dir ++ [f])) with
    | some f =>
      { st with compose_file_name := f, compose_yaml := (fs.read (dir ++ [f])).getD [] }
    | none => st
  let st :=
    match ACCEPTED_COMPOSE_OVERRIDE_FILE_NAMES.find? (fun f => fs.pathExists (dir ++ [f])) with
    | some f =>
      { st with compose_override_file_name := f,
                compose_override_yaml := (fs.read (dir ++ [f])).getD [] }
    | none => st
  if fs.pathExists (dir ++ [".env".data]) then
    { st with compose_env := (fs.read (dir ++ [".env".data])).getD [] }
  else st

/-- The managed-directory branch of `Stack::get_stack` — models/stack.rs
lines 324-338: when the stack directory exists, load a fresh `Stack::new`
from disk.  `none` stands for the fallback to the `compose ls` listing for
unmanaged projects, which the round-trip claims never reach. -/
def get_stack (fs : FS) (stacks_dir : FPath) (name : List Char) : Option StackM :=
  if fs.dirs (stacks_dir ++ [name]) then
    some (load_from_disk fs (StackM.new name stacks_dir))
  else none

/-- A stack whose name fails the `[a-z0-9_-]+` regex (C4 witness). -/
def badStack : StackM :=
  { StackM.new "Bad!".data ["stacks".data] with compose_yaml := "x: 1".data }

/-- A stack with a whitespace-only env (C5 counterexample). -/
def envStack : StackM :=
  { StackM.new "a".data ["stacks".data] with
      compose_yaml := "x: 1".data, compose_env := "\n".data }

/-- A stack with a non-blank env (C5 witness). -/
def okStack : StackM :=
  { StackM.new "web".data ["stacks".data] with
      compose_yaml := "x: 1".data, compose_env := "k=v".data }

/-! ### JWT token binding — models/user.rs, handlers/auth.rs -/

/-- The fields of the `user` row the token logic uses. -/
structure UserM where
  username : List Char
  password : Option (List Char)
deriving DecidableEq

/-- `JwtClaims` — models/user.rs lines 20-26 (`exp` is optional). -/
structure JwtClaims where
  username : List Char
  h : List Char
  exp : Option Nat
deriving DecidableEq

/-- One lowercase hexadecimal digit. -/
def hexDigit (n : Nat) : Char :=
  if n < 10 then Char.ofNat ('0'.toNat + n) else Char.ofNat ('a'.toNat + (n - 10))

/-- `hex::encode`: two lowercase hex digits per byte. -/
def hexEncode (bytes : List Nat) : List Char :=
  bytes.foldr (fun b acc => hexDigit (b / 16 % 16) :: hexDigit (b % 16) :: acc) []

/-- `shake256_hex` — models/user.rs lines 128-140: empty input hashes to the
empty string, otherwise the requested number of XOF output bytes is
hex-encoded.  The SHAKE256 XOF core (sha3 crate) is the oracle `shake`. -/
def shake256_hex (shake : List Char → Nat → List Nat) (input : List Char) (length : Nat) :
    List Char :=
  if input = [] then [] else hexEncode (shake input length)

/-- The claims `User::create_jwt` signs — models/user.rs lines 85-106: `h` is
the 16-byte SHAKE256 of the stored password hash (empty for a missing
password); `exp` is now + 30 days, abstracted as a parameter. -/
def create_jwt_claims (shake : List Char → Nat → List Nat) (u : UserM) (exp : Nat) :
    JwtClaims :=
  { username := u.username, h := shake256_hex shake (u.password.getD []) 16,
    exp := some exp }

inductive TokenLoginResult where
  | ok
  | invalidToken
  | userInactive
deriving DecidableEq

/-- The decision `handle_login_by_token` takes after the JWT signature check
(handlers/auth.rs lines 246-272): look the claimed user up; reject when the
SHAKE256 of the user's current password hash differs from the `h` claim.
The decode step sets `validate_exp = false` and clears the required claims,
so `exp` is never consulted. -/
def login_by_token_decision (shake : List Char → Nat → List Nat)
    (claims : JwtClaims) (found : Option UserM) : TokenLoginResult :=
  match found with
  | none => TokenLoginResult.userInactive
  | some user =>
    let password_hash := user.password.getD []
    let h := shake256_hex shake password_hash 16
    if h ≠ claims.h then TokenLoginResult.invalidToken else TokenLoginResult.ok

/-- A concrete user for the C8 witness. -/
def userA : UserM := { username := "admin".data, password := some "hash".data }

/-! ### Password strength — models/user.rs lines 204-211, handlers/auth.rs -/

/-- UTF-8 byte count of one character. -/
def utf8Len (c : Char) : Nat :=
  if c.toNat < 0x80 then 1
  else if c.toNat < 0x800 then 2
  else if c.toNat < 0x10000 then 3
  else 4

/-- Rust `str::len`: the UTF-8 byte length. -/
def strByteLen (s : List Char) : Nat :=
  (s.map utf8Len).sum

/-- `check_password_strength` — models/user.rs lines 204-211.  `alphabetic`
is an oracle for Unicode `char::is_alphabetic`; it agrees with `Char.isAlpha`
on ASCII.  `Char.isDigit` is exactly `char::is_ascii_digit`. -/
def check_password_strength (alphabetic : Char → Bool) (password : List Char) : Bool :=
  if strByteLen password < 6 then false
  else password.any alphabetic && password.any Char.isDigit

inductive SetupResult where
  | weakPassword
  | alreadyInitialized
  | ok
deriving DecidableEq

/-- `handle_setup` — handlers/auth.rs lines 95-123: strength check first,
then the already-initialized check, then the user row is created (`users` is
the user table, `hash` the bcrypt oracle; the db-error path is not
modeled). -/
def handle_setup (alphabetic : Char → Bool) (hash : List Char → List Char)
    (users : List UserM) (username password : List Char) : SetupResult × List UserM :=
  if !check_password_strength alphabetic password then
    (SetupResult.weakPassword, users)
  else if 0 < users.length then
    (SetupResult.alreadyInitialized, users)
  else
    (SetupResult.ok, users ++ [{ username := username, password := some (hash password) }])

inductive ChangePwResult where
  | notLoggedIn
  | invalidNewPassword
  | weakPassword
  | userNotFound
  | incorrectCurrent
  | ok
deriving DecidableEq

/-- `User::verify_password` — models/user.rs lines 108-114 (`verify` is the
bcrypt-verify oracle). -/
def verify_password (verify : List Char → List Char → Bool) (u : UserM)
    (password : List Char) : Bool :=
  match u.password with
  | some stored => verify password stored
  | none => false

/-- `handle_change_password` — handlers/auth.rs lines 274-316: the session
check, the empty-new-password check, the strength check, the user lookup and
the current-password check, in source order; on success the new bcrypt hash
is stored (returned as `some` new stored hash). -/
def handle_change_password (alphabetic : Char → Bool)
    (verify : List Char → List Char → Bool) (hash : List Char → List Char)
    (session : Option Nat) (found : Option UserM)
    (currentPassword newPassword : List Char) : ChangePwResult × Option (List Char) :=
  match session with
  | none => (ChangePwResult.notLoggedIn, none)
  | some _ =>
    if newPassword = [] then (ChangePwResult.invalidNewPassword, none)
    else if !check_password_strength alphabetic newPassword then
      (ChangePwResult.weakPassword, none)
    else
      match found with
      | none => (ChangePwResult.userNotFound, none)
      | some user =>
        if !verify_password verify user currentPassword then
          (ChangePwResult.incorrectCurrent, none)
        else (ChangePwResult.ok, some (hash newPassword))

/-! ### Stack list — models/stack.rs lines 268-321 -/

/-- One directory entry of the stacks root, with the facts the scan uses:
whether it is a directory and whether any accepted compose file exists
inside it. -/
structure RootEntry where
  name : List Char
  isDir : Bool
  hasCompose : Bool
deriving DecidableEq

/-- The stack list as name-to-status pairs (the other `Stack` fields play no
role in the C10 claims). -/
abbrev StackMap := List (List Char × Int)

def StackMap.containsKey (m : StackMap) (k : List Char) : Bool :=
  m.any fun p => p.1 == k

/-- `HashMap::entry(k).or_insert_with(Stack::new …)`: `Stack::new` has status
`UNKNOWN`. -/
def StackMap.orInsert (m : StackMap) (k : List Char) (v : Int) : StackMap :=
  if m.containsKey k then m else m ++ [(k, v)]

/-- In-place mutation of the entry's status. -/
def StackMap.setStatus (m : StackMap) (k : List Char) (v : Int) : StackMap :=
  m.map fun p => if p.1 == k then (p.1, v) else p

/-- `HashMap::remove`. -/
def StackMap.removeKey (m : StackMap) (k : List Char) : StackMap :=
  m.filter fun p => !(p.1 == k)

/-- `Stack::is_managed_by_dockge` — models/stack.rs lines 103-106: the stack
path exists and is a directory. -/
def dirExists (entries : List RootEntry) (name : List Char) : Bool :=
  entries.any fun e => e.name == name && e.isDir

/-- The directory scan of `Stack::get_stack_list` — models/stack.rs lines
272-296: skip non-directories, skip entries without an accepted compose
file, insert the rest with status `CREATED_FILE`. -/
def scanStacksDir (entries : List RootEntry) : StackMap :=
  entries.foldl
    (fun m e =>
      if !e.isDir then m
      else if !e.hasCompose then m
      else if m.containsKey e.name then m.setStatus e.name CREATED_FILE
      else m ++ [(e.name, CREATED_FILE)])
    []

/-- One iteration of the `compose ls` loop of `Stack::get_stack_list` —
models/stack.rs lines 301-313: `or_insert` a fresh stack, drop a `dockge`
project whose directory is not managed, otherwise store the converted
status. -/
def applyComposeLsEntry (entries : List RootEntry) (m : StackMap)
    (e : List Char × List Char) : StackMap :=
  let m := m.orInsert e.1 UNKNOWN
  if e.1 == "dockge".data && !dirExists entries e.1 then
    m.removeKey e.1
  else
    m.setStatus e.1 (status_convert e.2)

/-- `Stack::get_stack_list` — models/stack.rs lines 268-321: the scan
followed by the `compose ls` merge. -/
def get_stack_list (entries : List RootEntry) (composeLs : List (List Char × List Char)) :
    StackMap :=
  composeLs.foldl (applyComposeLsEntry entries) (scanStacksDir entries)

/-- A compose-less subdirectory for the C10 counterexample and witness. -/
def entryFoo : RootEntry := { name := "foo".data, isDir := true, hasCompose := false }

end Dockge

namespace Dockge

/-! ### Helper lemmas -/

theorem regexCount_nonneg (pat s : List Char) : 0 ≤ regexCount pat s := by
  unfold regexCount
  rcases captureFirst pat s with _ | ds
  · simp
  · show 0 ≤ (parseI32 ds).getD 0
    unfold parseI32
    by_cases h : ds ≠ [] ∧ ds.all Char.isDigit = true ∧ digitsToNat ds ≤ 2147483647
    · rw [if_pos h]
      exact Int.ofNat_nonneg _
    · rw [if_neg h]
      simp

/-- The leftmost `running\((\d+)\)` match on
`"exited(1) running(٣) running(2)"` captures the Unicode digit `٣`, whose
`i32` parse fails, so the running count is 0 and the status is `EXITED` —
matching the program. -/
theorem status_convert_unicode_digit_capture :
    captureFirst "running(".data "exited(1) running(٣) running(2)".data =
      some "٣".data ∧
    regexCount "running(".data "exited(1) running(٣) running(2)".data = 0 ∧
    regexCount "exited(".data "exited(1) running(٣) running(2)".data = 1 ∧
    status_convert "exited(1) running(٣) running(2)".data = EXITED := by
  refine ⟨by decide, by decide, by decide, by decide⟩

theorem splitOnChar_ne_nil (sep : Char) (s : List Char) : splitOnChar sep s ≠ [] := by
  cases s with
  | nil => simp [splitOnChar]
  | cons c t =>
    simp only [splitOnChar]
    by_cases h : c = sep
    · simp [h]
    · simp only [if_neg h]
      cases splitOnChar sep t with
      | nil => simp
      | cons h' r => simp

theorem joinSep_cons_cons (sep c : Char) (h : List Char) (r : List (List Char)) :
    joinSep sep ((c :: h) :: r) = c :: joinSep sep (h :: r) := by
  cases r <;> rfl

theorem joinSep_nil_cons (sep : Char) (h : List Char) (r : List (List Char)) :
    joinSep sep ([] :: h :: r) = sep :: joinSep sep (h :: r) := rfl

theorem joinSep_splitOnChar (sep : Char) (s : List Char) :
    joinSep sep (splitOnChar sep s) = s := by
  induction s with
  | nil => rfl
  | cons c t ih =>
    simp only [splitOnChar]
    by_cases h : c = sep
    · rw [if_pos h]
      rcases hs : splitOnChar sep t with _ | ⟨hd, r⟩
      · exact absurd hs (splitOnChar_ne_nil sep t)
      · rw [joinSep_nil_cons, ← hs, ih, h]
    · rw [if_neg h]
      rcases hs : splitOnChar sep t with _ | ⟨hd, r⟩
      · exact absurd hs (splitOnChar_ne_nil sep t)
      · show joinSep sep ((c :: hd) :: r) = c :: t
        rw [joinSep_cons_cons, ← hs, ih]

/-! ### C1 — status_convert -/

/-- C1 (counterexample): on `"running(0), exited(0)"` both extracted counts
are 0, yet `status_convert` returns `RUNNING` via the substring fallback,
contradicting the claim that `RUNNING` is returned iff N>0 and M=0. -/
theorem C1_counterexample :
    regexCount "running(".data "running(0), exited(0)".data = 0 ∧
    regexCount "exited(".data "running(0), exited(0)".data = 0 ∧
    status_convert "running(0), exited(0)".data = RUNNING := by
  refine ⟨by decide, by decide, by decide⟩

/-- C1 (amended): for a status string `s`, `status_convert` returns
`CREATED_STACK` when `s` starts with `created`; otherwise, with N and M the
counts extracted for `running(N)` and `exited(M)` (0 when absent), it returns
`RUNNING_AND_EXITED` iff N>0 and M>0, `RUNNING` iff N>0 and M=0 or else both
counts are 0 and `s` contains `running`, and `EXITED` iff N=0 and M>0 or else
both counts are 0, `s` does not contain `running` and contains `exited`. -/
theorem C1_status_convert_cases (s : List Char) (N M : Int)
    (hN : regexCount "running(".data s = N) (hM : regexCount "exited(".data s = M) :
    (("created".data).isPrefixOf s = true → status_convert s = CREATED_STACK) ∧
    (("created".data).isPrefixOf s = false →
      ((status_convert s = RUNNING_AND_EXITED ↔ 0 < N ∧ 0 < M) ∧
       (status_convert s = RUNNING ↔
         (0 < N ∧ M = 0) ∨ (N = 0 ∧ M = 0 ∧ containsSub "running".data s = true)) ∧
       (status_convert s = EXITED ↔
         (N = 0 ∧ 0 < M) ∨ (N = 0 ∧ M = 0 ∧ containsSub "running".data s = false ∧
           containsSub "exited".data s = true)))) := by
  subst hN hM
  have hN0 := regexCount_nonneg "running(".data s
  have hM0 := regexCount_nonneg "exited(".data s
  constructor
  · intro h
    simp [status_convert, h]
  · intro h
    simp only [status_convert, h, Bool.false_eq_true, if_false]
    split_ifs with h1 h2 h3 h4 h5 <;>
      simp_all [RUNNING, EXITED, RUNNING_AND_EXITED, UNKNOWN] <;> omega

/-- C1 (witness for the amended theorem at a concrete input). -/
theorem C1_witness :
    status_convert "running(2), exited(1)".data = RUNNING_AND_EXITED := by
  have h := (C1_status_convert_cases "running(2), exited(1)".data _ _ rfl rfl).2 (by decide)
  exact h.1.mpr (by decide)

/-! ### C2 — parse_image_reference -/

/-- C2 (counterexample): for `docker.io/nginx` the registry `docker.io` is
stripped and a single segment `nginx` remains, yet the repository is `nginx`,
not `library/nginx`; and for the single segment `foo.bar`, which contains `.`,
the segment is not treated as the registry. -/
theorem C2_counterexample :
    parse_image_reference "docker.io/nginx".data =
      ⟨"docker.io".data, "nginx".data, "latest".data⟩ ∧
    "nginx".data ≠ "library/nginx".data ∧
    parse_image_reference "foo.bar".data =
      ⟨"registry-1.docker.io".data, "library/foo.bar".data, "latest".data⟩ ∧
    "registry-1.docker.io".data ≠ "foo.bar".data := by
  refine ⟨by decide, by decide, by decide, by decide⟩

/-- C2 (amended): `parse_image_reference` strips any `@sha256:` suffix, takes
the suffix after the last `:` as the tag only when that colon occurs after the
last `/` (default `latest`), treats the first segment as the registry only
when there are at least two segments and it contains `.` or `:` (else
`registry-1.docker.io`), and prepends `library/` only when no registry
segment was detected and a single segment remains. -/
theorem C2_parse_image_reference_amended (s : List Char) :
    parse_image_reference s = amended_parse_image_reference s := by
  simp only [parse_image_reference, amended_parse_image_reference]
  split_ifs with h1 h2
  · rfl
  · rfl
  · rw [joinSep_splitOnChar]

/-! ### C3 — update decision and per-service opt-out -/

/-- C3: `has_update` is true iff the remote digest was obtained, the local
digest was obtained, and they differ, except that it is false when the
service's ignore digest equals the remote digest; and every image check
produced by the `check_all` service loop comes from a service of the list
whose `dockge.imageupdates.check` label is not `"false"`, with its image
string and its `dockge.imageupdates.ignore` label. -/
theorem C3_update_decision :
    (∀ remote locl ignore, compute_has_update remote locl ignore = true ↔
      ∃ r l, remote = some r ∧ locl = some l ∧ r ≠ l ∧ ignore ≠ some r) ∧
    (∀ services entry, entry ∈ services_to_check services →
      ∃ svc, svc ∈ services ∧ svc.name = entry.1 ∧ svc.image = some entry.2.1 ∧
        lookupLabel svc.labels checkLabelKey ≠ some "false".data ∧
        lookupLabel svc.labels ignoreLabelKey = entry.2.2) := by
  constructor
  · intro remote locl ignore
    rcases remote with _ | r
    · simp [compute_has_update]
    · rcases locl with _ | l
      · simp [compute_has_update]
      · rcases ignore with _ | ig
        · by_cases h : r = l <;> simp [compute_has_update, h]
        · by_cases h : r = l
          · simp [compute_has_update, h]
          · by_cases hig : r = ig
            · simp [compute_has_update, h, hig]
            · simp [compute_has_update, h, hig]
              exact fun hh => hig hh.symm
  · intro services
    induction services with
    | nil => intro entry h; simp [services_to_check] at h
    | cons svc rest ih =>
      intro entry h
      rcases himg : svc.image with _ | img
      · simp only [services_to_check, himg] at h
        obtain ⟨s, hs, rest_h⟩ := ih entry h
        exact ⟨s, List.mem_cons_of_mem _ hs, rest_h⟩
      · simp only [services_to_check, himg] at h
        by_cases hc : lookupLabel svc.labels checkLabelKey = some "false".data
        · rw [if_pos hc] at h
          obtain ⟨s, hs, rest_h⟩ := ih entry h
          exact ⟨s, List.mem_cons_of_mem _ hs, rest_h⟩
        · rw [if_neg hc] at h
          rcases List.mem_cons.mp h with he | he
          · subst he
            exact ⟨svc, List.mem_cons_self _ _, rfl, himg, hc, rfl⟩
          · obtain ⟨s, hs, rest_h⟩ := ih entry he
            exact ⟨s, List.mem_cons_of_mem _ hs, rest_h⟩

/-- C3 (witness): applying the second conjunct to a concrete one-service
list, and the first conjunct implicitly through a decidable check. -/
theorem C3_witness :
    ∃ svc, svc ∈ [svcWeb] ∧ svc.name = entryWeb.1 ∧ svc.image = some entryWeb.2.1 ∧
      lookupLabel svc.labels checkLabelKey ≠ some "false".data ∧
      lookupLabel svc.labels ignoreLabelKey = entryWeb.2.2 :=
  C3_update_decision.2 [svcWeb] entryWeb (by decide)

/-! ### C6 — exec exclusivity -/

theorem countName_cons (p : List Char × Nat) (m : Manager) (name : List Char) :
    countName (p :: m) name = (if p.1 = name then 1 else 0) + countName m name := by
  simp only [countName, List.filter_cons]
  by_cases hp : p.1 = name
  · simp [hp, Nat.add_comm]
  · simp [hp]

theorem has_false_countName (m : Manager) (name : List Char)
    (h : Manager.has m name = false) : countName m name = 0 := by
  induction m with
  | nil => rfl
  | cons p t ih =>
    simp only [Manager.has, List.any_cons, Bool.or_eq_false_iff, beq_eq_false_iff_ne,
      ne_eq] at h
    rw [countName_cons, if_neg h.1, ih h.2]

theorem countName_remove_le (m : Manager) (nm name : List Char) :
    countName (remove_terminal m nm) name ≤ countName m name := by
  have hsub : List.Sublist (remove_terminal m nm) m := List.filter_sublist _
  exact (hsub.filter _).length_le

theorem countName_applyOp (m : Manager) (op : TermOp) (name : List Char)
    (h : countName m name ≤ 1) : countName (applyOp m op) name ≤ 1 := by
  cases op with
  | exec nm tid =>
    simp only [applyOp, exec_register]
    by_cases hh : Manager.has m nm = true
    · simpa [hh] using h
    · have hb : Manager.has m nm = false := by simpa using hh
      simp only [hb, Bool.false_eq_true, if_false]
      rw [countName_cons]
      by_cases hn : nm = name
      · subst hn
        rw [if_pos rfl, has_false_countName m nm hb]
      · rw [if_neg hn]
        simpa using h
  | spawnPersistent nm tid =>
    simp only [applyOp, spawn_persistent_register]
    by_cases hh : Manager.has m nm = true
    · simpa [hh] using h
    · have hb : Manager.has m nm = false := by simpa using hh
      simp only [hb, Bool.false_eq_true, if_false]
      rw [countName_cons]
      by_cases hn : nm = name
      · subst hn
        rw [if_pos rfl, has_false_countName m nm hb]
      · rw [if_neg hn]
        simpa using h
  | remove nm =>
    exact le_trans (countName_remove_le m nm name) h

/-- C6: `exec` returns the "already running" error and registers nothing
precisely when the name is already registered, otherwise it registers the
newly spawned terminal under the name; and along any sequence of manager
operations starting from the empty registry, at most one terminal is
registered under any given name at a time. -/
theorem C6_exec_exclusive :
    (∀ m name tid, Manager.has m name = true →
      exec_register m name tid = Except.error alreadyRunningMsg) ∧
    (∀ m name tid, Manager.has m name = false →
      exec_register m name tid = Except.ok ((name, tid) :: m)) ∧
    (∀ ops name, countName (applyOps ops) name ≤ 1) := by
  refine ⟨fun m name tid h => by simp [exec_register, h],
    fun m name tid h => by simp [exec_register, h], fun ops name => ?_⟩
  suffices hgen : ∀ m, countName m name ≤ 1 → countName (ops.foldl applyOp m) name ≤ 1 by
    exact hgen [] (by simp [countName])
  induction ops with
  | nil => intro m hm; exact hm
  | cons op rest ih =>
    intro m hm
    exact ih (applyOp m op) (countName_applyOp m op name hm)

/-- C6 (witness): a second `exec` under an in-use name fails with the
"already running" error. -/
theorem C6_witness :
    exec_register [("compose--web".data, 0)] "compose--web".data 1 =
      Except.error alreadyRunningMsg :=
  C6_exec_exclusive.1 _ _ _ (by decide)

/-! ### C7 — replay buffer -/

/-- C7: the replay buffer never exceeds 100 chunks (both stepwise and along
any sequence of pushes from the empty buffer); below the limit a push
appends at the tail, at the limit it also evicts the oldest chunk from the
head; the manager's `get_buffer` concatenates the chunks of a registered
terminal in order and returns the empty string for an unknown name. -/
theorem C7_replay_buffer :
    (∀ buffer data, buffer.length ≤ BUFFER_LIMIT →
      (push_buffer buffer data).length ≤ BUFFER_LIMIT) ∧
    (∀ chunks, (pushMany [] chunks).length ≤ BUFFER_LIMIT) ∧
    (∀ buffer data, buffer.length < BUFFER_LIMIT →
      push_buffer buffer data = buffer ++ [data]) ∧
    (∀ buffer data, buffer.length = BUFFER_LIMIT →
      push_buffer buffer data = buffer.tail ++ [data]) ∧
    (∀ terminals name t, terminals.find? (fun p => p.1 == name) = some t →
      manager_get_buffer terminals name = t.2.flatten) ∧
    (∀ terminals name, terminals.find? (fun p => p.1 == name) = none →
      manager_get_buffer terminals name = []) := by
  have hstep : ∀ (buffer : List (List Char)) data, buffer.length ≤ BUFFER_LIMIT →
      (push_buffer buffer data).length ≤ BUFFER_LIMIT := by
    intro buffer data h
    simp only [push_buffer]
    by_cases hl : BUFFER_LIMIT < (buffer ++ [data]).length
    · rw [if_pos hl]
      simp only [List.length_tail, List.length_append, List.length_singleton]
      omega
    · rw [if_neg hl]
      omega
  refine ⟨hstep, fun chunks => ?_, fun buffer data h => ?_, fun buffer data h => ?_,
    fun terminals name t h => ?_, fun terminals name h => ?_⟩
  · suffices hgen : ∀ buffer : List (List Char), buffer.length ≤ BUFFER_LIMIT →
        (pushMany buffer chunks).length ≤ BUFFER_LIMIT by
      exact hgen [] (by simp [BUFFER_LIMIT])
    induction chunks with
    | nil => intro buffer hb; exact hb
    | cons c rest ih =>
      intro buffer hb
      exact ih (push_buffer buffer c) (hstep buffer c hb)
  · simp only [push_buffer]
    rw [if_neg (by simp only [List.length_append, List.length_singleton]; omega)]
  · simp only [push_buffer]
    rw [if_pos (by simp only [List.length_append, List.length_singleton]; omega)]
    cases buffer with
    | nil => simp [BUFFER_LIMIT] at h
    | cons b t => simp
  · simp only [manager_get_buffer, h, get_buffer]
  · simp only [manager_get_buffer, h]

/-- C7 (witness): pushing onto a buffer below the limit appends at the
tail. -/
theorem C7_witness :
    push_buffer ["a".data] "b".data = ["a".data] ++ ["b".data] :=
  C7_replay_buffer.2.2.1 ["a".data] "b".data (by decide)

/-! ### C4 — save validates before writing -/

/-- C4: whenever validation (name regex, compose YAML, non-blank override
YAML, env sanity) or the `is_add` precondition (directory absent when
adding, present otherwise) fails, `Stack::save` returns an error and leaves
the filesystem unchanged. -/
theorem C4_save_validates_before_write (yamlOk : List Char → Bool) (st : StackM)
    (is_add : Bool) (fs : FS)
    (h : (∃ e, validate yamlOk st = Except.error e)
       ∨ (is_add = true ∧ fs.pathExists st.path = true)
       ∨ (is_add = false ∧ fs.pathExists st.path = false)) :
    (∃ e, (save yamlOk st is_add fs).1 = Except.error e) ∧
    (save yamlOk st is_add fs).2 = fs := by
  rcases h with ⟨e, he⟩ | ⟨ha, hp⟩ | ⟨ha, hp⟩
  · simp [save, he]
  · subst ha
    rcases hv : validate yamlOk st with e | u
    · simp [save, hv]
    · simp [save, hv, hp]
  · subst ha
    rcases hv : validate yamlOk st with e | u
    · simp [save, hv]
    · simp [save, hv, hp]

/-- C4 (witness): saving a stack whose name fails the regex errors out and
mutates nothing. -/
theorem C4_witness :
    (∃ e, (save (fun _ => true) badStack true FS.empty).1 = Except.error e) ∧
    (save (fun _ => true) badStack true FS.empty).2 = FS.empty :=
  C4_save_validates_before_write (fun _ => true) badStack true FS.empty
    (Or.inl ⟨AppError.validation "Stack name can only contain [a-z][0-9] _ - only".data,
      rfl⟩)

/-! ### C5 — save/load round trip -/

theorem pathExists_write (fs : FS) (p : FPath) (c : List Char) (q : FPath) :
    (fs.write p c).pathExists q = if q = p then true else fs.pathExists q := by
  simp only [FS.write, FS.pathExists]
  by_cases h : q = p <;> simp [h]

theorem pathExists_createDirAll (fs : FS) (p q : FPath) :
    (fs.createDirAll p).pathExists q = if q = p then true else fs.pathExists q := by
  simp only [FS.createDirAll, FS.pathExists]
  by_cases h : q = p <;> simp [h]

theorem read_write (fs : FS) (p : FPath) (c : List Char) (q : FPath) :
    (fs.write p c).read q = if q = p then some c else fs.read q := rfl

theorem read_createDirAll (fs : FS) (p q : FPath) :
    (fs.createDirAll p).read q = fs.read q := rfl

theorem dirs_write (fs : FS) (p : FPath) (c : List Char) (q : FPath) :
    (fs.write p c).dirs q = fs.dirs q := rfl

theorem dirs_createDirAll_self (fs : FS) (p : FPath) :
    (fs.createDirAll p).dirs p = true := by
  simp [FS.createDirAll]

theorem append_single_ne (dir : FPath) (a b : List Char) (h : a ≠ b) :
    dir ++ [a] ≠ dir ++ [b] :=
  fun hh => h (by simpa using List.append_cancel_left hh)

theorem append_single_ne_self (dir : FPath) (a : List Char) : dir ++ [a] ≠ dir := by
  intro h
  have := congrArg List.length h
  simp at this

/-- C5 (counterexample): the env string `"\n"` passes validation and `save`
succeeds, but it is blank after trimming, so no `.env` file is written and
`getStack` loads the env back as the empty string — not byte-identical. -/
theorem C5_counterexample :
    (save (fun _ => true) envStack true FS.empty).1 = Except.ok () ∧
    (get_stack (save (fun _ => true) envStack true FS.empty).2
      ["stacks".data] "a".data).map (·.compose_env) = some [] ∧
    envStack.compose_env ≠ [] :=
  ⟨rfl, rfl, by decide⟩

/-- C5 (amended): for a freshly added stack (default compose and override
file names, validation succeeding, directory and files absent), `save`
succeeds and `getStack` returns the compose content byte-identical; the env
and override contents are byte-identical whenever their trimmed content is
non-blank, and load back as the empty string otherwise. -/
theorem C5_save_load_roundtrip (yamlOk : List Char → Bool) (st : StackM) (fs : FS)
    (hcfn : st.compose_file_name = "compose.yaml".data)
    (hofn : st.compose_override_file_name = "compose.override.yaml".data)
    (hval : validate yamlOk st = Except.ok ())
    (hdir : fs.pathExists st.path = false)
    (hfiles : ∀ f, fs.pathExists (st.path ++ [f]) = false) :
    (save yamlOk st true fs).1 = Except.ok () ∧
    ∃ st2, get_stack (save yamlOk st true fs).2 st.stacks_dir st.name = some st2 ∧
      st2.compose_yaml = st.compose_yaml ∧
      st2.compose_env =
        (if (rustTrim st.compose_env).isEmpty then [] else st.compose_env) ∧
      st2.compose_override_yaml =
        (if (rustTrim st.compose_override_yaml).isEmpty then []
         else st.compose_override_yaml) := by
  obtain ⟨nm, cy, ce, co, cfn, cofn, sd⟩ := st
  simp only [StackM.path] at hdir hfiles ⊢
  simp only at hcfn hofn
  subst hcfn hofn
  have hsave : save yamlOk ⟨nm, cy, ce, co, "compose.yaml".data,
      "compose.override.yaml".data, sd⟩ true fs =
      saveWrites ⟨nm, cy, ce, co, "compose.yaml".data, "compose.override.yaml".data, sd⟩
        (sd ++ [nm]) (fs.createDirAll (sd ++ [nm])) := by
    simp [save, hval, StackM.path, hdir]
  rw [hsave]
  refine ⟨rfl, ?_⟩
  have happ : ∀ f g : List Char, ((sd ++ [nm] ++ [f] : FPath) = sd ++ [nm] ++ [g]) ↔ f = g := by
    intro f g
    constructor
    · intro h; simpa using List.append_cancel_left h
    · intro h; rw [h]
  have hself : ∀ f : List Char, ¬((sd ++ [nm] ++ [f] : FPath) = sd ++ [nm]) :=
    fun f => append_single_ne_self _ _
  have ne1 : (".env".data : List Char) ≠ "compose.yaml".data := by decide
  have ne2 : ("compose.override.yaml".data : List Char) ≠ ".env".data := by decide
  have ne3 : ("compose.override.yaml".data : List Char) ≠ "compose.yaml".data := by decide
  have ne4 : ("compose.yaml".data : List Char) ≠ "compose.override.yaml".data := by decide
  have ne5 : ("compose.yaml".data : List Char) ≠ ".env".data := by decide
  have ne6 : ("compose.override.yml".data : List Char) ≠ "compose.override.yaml".data := by decide
  have ne7 : ("compose.override.yml".data : List Char) ≠ ".env".data := by decide
  have ne8 : ("compose.override.yml".data : List Char) ≠ "compose.yaml".data := by decide
  have ne9 : ("docker-compose.override.yaml".data : List Char) ≠ "compose.override.yaml".data := by
    decide
  have ne10 : ("docker-compose.override.yaml".data : List Char) ≠ ".env".data := by decide
  have ne11 : ("docker-compose.override.yaml".data : List Char) ≠ "compose.yaml".data := by decide
  have ne12 : ("docker-compose.override.yml".data : List Char) ≠ "compose.override.yaml".data := by
    decide
  have ne13 : ("docker-compose.override.yml".data : List Char) ≠ ".env".data := by decide
  have ne14 : ("docker-compose.override.yml".data : List Char) ≠ "compose.yaml".data := by decide
  have ne15 : (".env".data : List Char) ≠ "compose.override.yaml".data := by decide
  cases he : (rustTrim ce).isEmpty <;> cases ho : (rustTrim co).isEmpty <;>
    · simp only [saveWrites, get_stack, load_from_disk, StackM.new, StackM.path,
        ACCEPTED_COMPOSE_FILE_NAMES, ACCEPTED_COMPOSE_OVERRIDE_FILE_NAMES,
        pathExists_write, pathExists_createDirAll, read_write, read_createDirAll,
        dirs_write, dirs_createDirAll_self, happ, hfiles, hself, he, ho,
        ne1, ne2, ne3, ne4, ne5, ne6, ne7, ne8, ne9, ne10, ne11, ne12, ne13, ne14, ne15,
        Option.getD_some, List.find?_cons_of_pos, List.find?_cons_of_neg,
        Bool.false_or, Bool.not_false, Bool.not_true, Bool.or_false, Bool.or_true,
        Bool.false_eq_true, Bool.true_eq_false, decide_eq_true_eq,
        if_true, if_false, ite_true, ite_false, ne_eq, not_false_iff]
      exact ⟨_, rfl, rfl, rfl, rfl⟩

/-- C5 (witness for the amended round trip at a concrete stack). -/
theorem C5_witness :
    (save (fun _ => true) okStack true FS.empty).1 = Except.ok () ∧
    ∃ st2, get_stack (save (fun _ => true) okStack true FS.empty).2
        okStack.stacks_dir okStack.name = some st2 ∧
      st2.compose_yaml = okStack.compose_yaml ∧
      st2.compose_env =
        (if (rustTrim okStack.compose_env).isEmpty then [] else okStack.compose_env) ∧
      st2.compose_override_yaml =
        (if (rustTrim okStack.compose_override_yaml).isEmpty then []
         else okStack.compose_override_yaml) :=
  C5_save_load_roundtrip (fun _ => true) okStack FS.empty rfl rfl rfl rfl (fun _ => rfl)

/-! ### C8 — JWT password-hash binding -/

/-- C8: a JWT issued at login carries `h` equal to `shake256_hex` of the
stored password hash with 16 output bytes; the token-login decision never
consults `exp`; it accepts a found user iff the SHAKE256 of the current
password hash equals the token's `h`; hence a token issued for password hash
`p` is accepted after the hash changed to `p2` iff the two hashes collide
under SHAKE256. -/
theorem C8_token_password_binding (shake : List Char → Nat → List Nat) :
    (∀ u exp, (create_jwt_claims shake u exp).h =
      shake256_hex shake (u.password.getD []) 16) ∧
    (∀ (claims : JwtClaims) (found : Option UserM) (e1 e2 : Option Nat),
      login_by_token_decision shake { claims with exp := e1 } found =
      login_by_token_decision shake { claims with exp := e2 } found) ∧
    (∀ claims u, login_by_token_decision shake claims (some u) = TokenLoginResult.ok ↔
      shake256_hex shake (u.password.getD []) 16 = claims.h) ∧
    (∀ u u2 exp,
      login_by_token_decision shake (create_jwt_claims shake u exp) (some u2) =
        TokenLoginResult.ok ↔
      shake256_hex shake (u2.password.getD []) 16 =
        shake256_hex shake (u.password.getD []) 16) := by
  have hacc : ∀ claims u, login_by_token_decision shake claims (some u) =
      TokenLoginResult.ok ↔
      shake256_hex shake (u.password.getD []) 16 = claims.h := by
    intro claims u
    by_cases h : shake256_hex shake (u.password.getD []) 16 = claims.h
    · simp [login_by_token_decision, h]
    · simp [login_by_token_decision, h]
  refine ⟨fun u exp => rfl, fun claims found e1 e2 => ?_, hacc, fun u u2 exp => hacc _ _⟩
  cases found <;> rfl

/-- C8 (witness): a token created for a user is accepted while the password
hash is unchanged. -/
theorem C8_witness :
    login_by_token_decision (fun _ n => List.replicate n 7)
      (create_jwt_claims (fun _ n => List.replicate n 7) userA 0) (some userA) =
      TokenLoginResult.ok :=
  ((C8_token_password_binding (fun _ n => List.replicate n 7)).2.2.2 userA userA 0).mpr rfl

/-! ### C9 — password strength -/

/-- C9 (counterexample): `"aaañ1"` has 5 characters but 6 UTF-8 bytes, so the
code accepts it although the claim requires at least 6 characters; and an
empty new password is rejected by `changePassword` with the
invalid-new-password error, not the weak-password error, although it fails
the strength predicate. -/
theorem C9_counterexample :
    check_password_strength Char.isAlpha "aaañ1".data = true ∧
    ("aaañ1".data).length = 5 ∧
    (handle_change_password Char.isAlpha (fun _ _ => true) (fun p => p)
        (some 1) (some userA) [] []).1 = ChangePwResult.invalidNewPassword ∧
    check_password_strength Char.isAlpha [] = false ∧
    ChangePwResult.invalidNewPassword ≠ ChangePwResult.weakPassword := by
  refine ⟨by decide, by decide, rfl, by decide, by decide⟩

/-- C9 (amended): `check_password_strength` is true iff the password has at
least 6 UTF-8 bytes, contains an alphabetic character and contains an ASCII
digit; `setup` rejects any weak password with the weak-password error and no
mutation; `changePassword` rejects a non-empty weak password with the
weak-password error and an empty one with the invalid-new-password error,
in both cases without mutation. -/
theorem C9_password_strength (alphabetic : Char → Bool)
    (verify : List Char → List Char → Bool) (hash : List Char → List Char) :
    (∀ p, check_password_strength alphabetic p = true ↔
      (6 ≤ strByteLen p ∧ (∃ c ∈ p, alphabetic c = true) ∧
        (∃ c ∈ p, c.isDigit = true))) ∧
    (∀ users un p, check_password_strength alphabetic p = false →
      handle_setup alphabetic hash users un p = (SetupResult.weakPassword, users)) ∧
    (∀ sid found cp np, np ≠ [] → check_password_strength alphabetic np = false →
      handle_change_password alphabetic verify hash (some sid) found cp np =
        (ChangePwResult.weakPassword, none)) ∧
    (∀ sid found cp,
      handle_change_password alphabetic verify hash (some sid) found cp [] =
        (ChangePwResult.invalidNewPassword, none)) := by
  refine ⟨fun p => ?_, fun users un p h => ?_, fun sid found cp np hnp h => ?_,
    fun sid found cp => rfl⟩
  · by_cases hl : strByteLen p < 6
    · simp only [check_password_strength, hl, if_true, Bool.false_eq_true, false_iff]
      intro hcon
      exact absurd hcon.1 (by omega)
    · simp only [check_password_strength, hl, if_false, Bool.and_eq_true, List.any_eq_true]
      constructor
      · rintro ⟨ha, hd⟩
        exact ⟨by omega, ha, hd⟩
      · rintro ⟨h6, ha, hd⟩
        exact ⟨ha, hd⟩
  · simp [handle_setup, h]
  · simp [handle_change_password, hnp, h]

/-- C9 (witness): `setup` with a 5-byte password fails with the weak-password
error and leaves the user table unchanged. -/
theorem C9_witness :
    handle_setup Char.isAlpha (fun p => p) [] "admin".data "short".data =
      (SetupResult.weakPassword, []) :=
  (C9_password_strength Char.isAlpha (fun _ _ => true) (fun p => p)).2.1
    [] "admin".data "short".data (by decide)

/-! ### C10 — stack list filtering -/

/-- C10 (counterexample): a compose-less subdirectory `foo` of the stacks
root appears in the stack list when `compose ls` reports a project of the
same name. -/
theorem C10_counterexample :
    (get_stack_list [entryFoo]
        [("foo".data, "running(1)".data)]).containsKey "foo".data = true ∧
    entryFoo.isDir = true ∧ entryFoo.hasCompose = false := by
  refine ⟨by decide, by decide, by decide⟩

theorem containsKey_append (m : StackMap) (p : List Char × Int) (name : List Char) :
    StackMap.containsKey (m ++ [p]) name = (m.containsKey name || p.1 == name) := by
  simp [StackMap.containsKey]

theorem containsKey_setStatus (m : StackMap) (k : List Char) (v : Int) (name : List Char) :
    (StackMap.setStatus m k v).containsKey name = m.containsKey name := by
  induction m with
  | nil => rfl
  | cons p t ih =>
    simp only [StackMap.setStatus, List.map_cons, StackMap.containsKey, List.any_cons] at ih ⊢
    by_cases hp : (p.1 == k) = true
    · simp only [hp, if_true, ih]
    · simp only [hp, Bool.false_eq_true, if_false, ih]

theorem containsKey_orInsert (m : StackMap) (k : List Char) (v : Int) (name : List Char)
    (h : (StackMap.orInsert m k v).containsKey name = true) :
    m.containsKey name = true ∨ k = name := by
  by_cases hc : m.containsKey k = true
  · simp only [StackMap.orInsert, hc, if_true] at h
    exact Or.inl h
  · simp only [StackMap.orInsert, hc, Bool.false_eq_true, if_false,
      containsKey_append] at h
    rcases Bool.or_eq_true_iff.mp h with h1 | h1
    · exact Or.inl h1
    · exact Or.inr (by simpa using h1)

theorem containsKey_removeKey (m : StackMap) (k name : List Char)
    (h : (StackMap.removeKey m k).containsKey name = true) :
    m.containsKey name = true := by
  simp only [StackMap.removeKey, StackMap.containsKey, List.any_eq_true] at h ⊢
  obtain ⟨p, hp, hn⟩ := h
  exact ⟨p, List.mem_of_mem_filter hp, hn⟩

theorem containsKey_removeKey_self (m : StackMap) (k : List Char) :
    (StackMap.removeKey m k).containsKey k = false := by
  simp only [StackMap.removeKey, StackMap.containsKey, List.any_eq_false]
  intro p hp
  simp only [List.mem_filter] at hp
  simpa using hp.2

theorem scan_membership (entries : List RootEntry) (name : List Char)
    (h : (scanStacksDir entries).containsKey name = true) :
    ∃ e ∈ entries, e.name = name ∧ e.isDir = true ∧ e.hasCompose = true := by
  suffices hgen : ∀ m : StackMap, (entries.foldl
      (fun m e =>
        if !e.isDir then m
        else if !e.hasCompose then m
        else if m.containsKey e.name then m.setStatus e.name CREATED_FILE
        else m ++ [(e.name, CREATED_FILE)]) m).containsKey name = true →
      m.containsKey name = true ∨
        ∃ e ∈ entries, e.name = name ∧ e.isDir = true ∧ e.hasCompose = true by
    rcases hgen [] h with h1 | h1
    · simp [StackMap.containsKey] at h1
    · exact h1
  clear h
  induction entries with
  | nil => intro m hm; exact Or.inl hm
  | cons e rest ih =>
    intro m hm
    rcases ih _ hm with h1 | h1
    · by_cases hd : e.isDir = true
      · by_cases hcp : e.hasCompose = true
        · simp only [hd, hcp, Bool.not_true, Bool.false_eq_true, if_false] at h1
          by_cases hc : m.containsKey e.name = true
          · rw [if_pos hc, containsKey_setStatus] at h1
            exact Or.inl h1
          · rw [if_neg hc, containsKey_append] at h1
            rcases Bool.or_eq_true_iff.mp h1 with h2 | h2
            · exact Or.inl h2
            · exact Or.inr ⟨e, List.mem_cons_self _ _, by simpa using h2, hd, hcp⟩
        · have hcp2 : e.hasCompose = false := by simpa using hcp
          simp only [hd, hcp2, Bool.not_true, Bool.not_false, Bool.false_eq_true,
            if_false, if_true] at h1
          exact Or.inl h1
      · have hd2 : e.isDir = false := by simpa using hd
        simp only [hd2, Bool.not_false, if_true] at h1
        exact Or.inl h1
    · obtain ⟨e2, he2, hrest⟩ := h1
      exact Or.inr ⟨e2, List.mem_cons_of_mem _ he2, hrest⟩

/-- C10 (amended): every name in the stack list is either a subdirectory of
the stacks root holding an accepted compose file, or a project reported by
`compose ls`; and a `dockge` entry survives only when its directory exists
under the stacks root. -/
theorem C10_stack_list_membership (entries : List RootEntry)
    (composeLs : List (List Char × List Char)) (name : List Char)
    (h : (get_stack_list entries composeLs).containsKey name = true) :
    ((∃ e ∈ entries, e.name = name ∧ e.isDir = true ∧ e.hasCompose = true) ∨
      ∃ p ∈ composeLs, p.1 = name) ∧
    (name = "dockge".data → dirExists entries name = true) := by
  suffices hgen : ∀ (ls : List (List Char × List Char)) (m : StackMap),
      (∀ p, p ∈ ls → p ∈ composeLs) →
      (∀ nm, m.containsKey nm = true →
        ((∃ e ∈ entries, e.name = nm ∧ e.isDir = true ∧ e.hasCompose = true) ∨
          ∃ p ∈ composeLs, p.1 = nm) ∧
        (nm = "dockge".data → dirExists entries nm = true)) →
      ∀ nm, (ls.foldl (applyComposeLsEntry entries) m).containsKey nm = true →
        ((∃ e ∈ entries, e.name = nm ∧ e.isDir = true ∧ e.hasCompose = true) ∨
          ∃ p ∈ composeLs, p.1 = nm) ∧
        (nm = "dockge".data → dirExists entries nm = true) by
    refine hgen composeLs (scanStacksDir entries) (fun p hp => hp) (fun nm hnm => ?_) name h
    obtain ⟨e, he, hn, hd, hcp⟩ := scan_membership entries nm hnm
    refine ⟨Or.inl ⟨e, he, hn, hd, hcp⟩, fun hdk => ?_⟩
    simp only [dirExists, List.any_eq_true]
    exact ⟨e, he, by simp [hn, hd]⟩
  clear h
  intro ls
  induction ls with
  | nil => intro m hsub hm nm h2; exact hm nm h2
  | cons e rest ih =>
    intro m hsub hm nm h2
    have hstep : ∀ nm2, (applyComposeLsEntry entries m e).containsKey nm2 = true →
        ((∃ e2 ∈ entries, e2.name = nm2 ∧ e2.isDir = true ∧ e2.hasCompose = true) ∨
          ∃ p ∈ composeLs, p.1 = nm2) ∧
        (nm2 = "dockge".data → dirExists entries nm2 = true) := by
      intro nm2 hc
      simp only [applyComposeLsEntry] at hc
      by_cases hdk : (e.1 == "dockge".data && !dirExists entries e.1) = true
      · rw [if_pos hdk] at hc
        have hmem := containsKey_orInsert m e.1 UNKNOWN nm2 (containsKey_removeKey _ _ _ hc)
        rcases hmem with h3 | h3
        · exact hm nm2 h3
        · subst h3
          exfalso
          rw [containsKey_removeKey_self] at hc
          exact Bool.false_ne_true hc
      · rw [if_neg (by simpa using hdk)] at hc
        rw [containsKey_setStatus] at hc
        have hmem := containsKey_orInsert m e.1 UNKNOWN nm2 hc
        rcases hmem with h3 | h3
        · exact hm nm2 h3
        · subst h3
          refine ⟨Or.inr ⟨e, hsub e (List.mem_cons_self _ _), rfl⟩, fun hdk2 => ?_⟩
          by_contra hcon
          have hd0 : dirExists entries e.1 = false := by simpa using hcon
          rw [hdk2] at hd0
          exact hdk (by rw [hdk2, hd0]; rfl)
    exact ih (applyComposeLsEntry entries m e)
      (fun p hp => hsub p (List.mem_cons_of_mem _ hp)) hstep nm h2

/-- C10 (witness for the amended theorem at a concrete listing). -/
theorem C10_witness :
    ((∃ e ∈ [entryFoo], e.name = "foo".data ∧ e.isDir = true ∧ e.hasCompose = true) ∨
      ∃ p ∈ [("foo".data, "running(1)".data)], p.1 = "foo".data) ∧
    ("foo".data = "dockge".data → dirExists [entryFoo] "foo".data = true) :=
  C10_stack_list_membership [entryFoo] [("foo".data, "running(1)".data)] "foo".data
    (by decide)

end Dockge
